import Mathlib

/-!
Shallow embedding of the PNG container parser in src/imaging/png.py of
craSH/libctf.  Bytes are modelled as natural numbers.  The memory-mapped
file is modelled by the byte list `raw` together with the shared read
cursor `pos`; `mmap.read n` returns up to `n` bytes and never fails,
while `mmap.seek` past the end of the map raises ValueError (modelled as
`SeekOutOfRange`).  `struct.unpack` of a byte string that is not exactly
4 bytes long raises `struct.error` (modelled as `TruncatedChunk`), a
failed strict-mode membership assertion raises AssertionError (modelled
as `UnrecognizedChunkType`), and the ValueError that `mmap.mmap` raises
for an empty file is modelled as `EmptyInput`.
-/

deriving instance DecidableEq for Except

/-- One PNG chunk record, mirroring class PngFile.PngChunk: byte offset of
the record, declared payload length, 4-byte type tag, payload bytes and the
trailing claimed CRC bytes. -/
structure PngChunk where
  offset : Nat
  length : Nat
  type : List Nat
  data : List Nat
  crc_claim : List Nat
deriving DecidableEq, Repr

/-- The failure kinds the Python code can raise while loading and decoding. -/
inductive PngError where
  | EmptyInput
  | SeekOutOfRange
  | TruncatedChunk
  | UnrecognizedChunkType
deriving DecidableEq, Repr

/-- The state of a PngFile object: the strictness flag fixed at
construction, the raw buffer, the shared mmap cursor, the accumulated chunk
list (entries are `Option PngChunk` because the lenient path of
extract_chunk returns None, which process_chunks appends as-is), and the
cached 8-byte header. -/
structure PngFile where
  strict : Bool
  raw : List Nat
  pos : Nat
  chunks : List (Option PngChunk)
  file_header : Option (List Nat)
deriving DecidableEq, Repr

/-- PngFile._valid_signature: the fixed 8-byte PNG magic. -/
def valid_signature : List Nat := [137, 80, 78, 71, 13, 10, 26, 10]

/-- PngFile._critical_chunks: IHDR, PLTE, IDAT, IEND as ASCII byte lists. -/
def critical_chunks : List (List Nat) :=
  [[73, 72, 68, 82], [80, 76, 84, 69], [73, 68, 65, 84], [73, 69, 78, 68]]

/-- PngFile._ancillary_chunks: bKGD, cHRM, gAMA, hIST, iCCP, iTXt, pHYs,
sBIT, sPLT, sRGB, sTER, tEXt, tIME, tRNS, zTXt as ASCII byte lists. -/
def ancillary_chunks : List (List Nat) :=
  [[98, 75, 71, 68], [99, 72, 82, 77], [103, 65, 77, 65], [104, 73, 83, 84],
   [105, 67, 67, 80], [105, 84, 88, 116], [112, 72, 89, 115], [115, 66, 73, 84],
   [115, 80, 76, 84], [115, 82, 71, 66], [115, 84, 69, 82], [116, 69, 88, 116],
   [116, 73, 77, 69], [116, 82, 78, 83], [122, 84, 88, 116]]

/-- PngFile._potential_chunks: all standardized chunk type tags. -/
def potential_chunks : List (List Nat) := critical_chunks ++ ancillary_chunks

/-- mmap.seek: succeeds for any position up to and including the map size,
raises ValueError beyond it (the cursor is then left unchanged). -/
def mmapSeek (s : PngFile) (p : Nat) : Except PngError PngFile :=
  if p ≤ s.raw.length then Except.ok { s with pos := p }
  else Except.error PngError.SeekOutOfRange

/-- mmap.read n: returns up to `n` bytes starting at the cursor, advancing
the cursor by the number of bytes actually available; it never fails, a
read near or past the end silently returns a short or empty byte string. -/
def mmapRead (s : PngFile) (n : Nat) : List Nat × PngFile :=
  ((s.raw.drop s.pos).take n, { s with pos := min (s.pos + n) s.raw.length })

/-- struct.unpack of a big-endian unsigned 32-bit integer: succeeds only on
exactly 4 bytes, raising struct.error (none) otherwise. -/
def unpackBE4 : List Nat → Option Nat
  | [b0, b1, b2, b3] => some (b0 * 16777216 + b1 * 65536 + b2 * 256 + b3)
  | _ => none

/-- The state of a freshly constructed PngFile right after load_from_file
succeeded on a buffer: cursor at 0, no chunks, header cached from the
first 8 bytes (fewer when the buffer is shorter). -/
def mkPng (strict : Bool) (buf : List Nat) : PngFile :=
  { strict := strict, raw := buf, pos := 0, chunks := [],
    file_header := some (buf.take 8) }

/-- PngFile.load_from_file, with the file content passed as the byte list:
mmap.mmap raises ValueError on an empty file (modelled as EmptyInput); on
any non-empty buffer it loads the whole content, rewinds the cursor and
caches the first 8 bytes (or fewer) as the header, never failing. -/
def load_from_file (strict : Bool) (buf : List Nat) : Except PngError PngFile :=
  if buf.length = 0 then Except.error PngError.EmptyInput
  else Except.ok (mkPng strict buf)

/-- PngFile.validate_signature: compares the fixed magic with the cached
header; the comparison itself cannot raise, and an absent header simply
compares unequal, so the result is a plain boolean. -/
def validate_signature (s : PngFile) : Bool :=
  decide (s.file_header = some valid_signature)

/-- The try-block body of PngFile.extract_chunk: seek to the offset, read
and unpack the 4-byte length, read the 4-byte type tag, assert membership
in the standardized tag list when strict, then read the payload and the
4-byte claimed CRC.  Returns the first exception raised, together with the
state at the moment it was raised. -/
def extract_chunk_step (s : PngFile) (chunk_offset : Nat) :
    Except PngError PngChunk × PngFile :=
  match mmapSeek s chunk_offset with
  | Except.error e => (Except.error e, s)
  | Except.ok s1 =>
    let r1 := mmapRead s1 4
    match unpackBE4 r1.1 with
    | none => (Except.error PngError.TruncatedChunk, r1.2)
    | some len =>
      let r2 := mmapRead r1.2 4
      if s.strict && !(potential_chunks.contains r2.1) then
        (Except.error PngError.UnrecognizedChunkType, r2.2)
      else
        let r3 := mmapRead r2.2 len
        let r4 := mmapRead r3.2 4
        (Except.ok { offset := chunk_offset, length := len, type := r2.1,
                     data := r3.1, crc_claim := r4.1 }, r4.2)

/-- PngFile.extract_chunk: runs the try-block body, then the finally block
seeks the cursor back to 0 when reset_pos is set (the default in the
source); an exception is re-raised in strict mode and swallowed into a
None result in lenient mode. -/
def extract_chunk (s : PngFile) (chunk_offset : Nat) (reset_pos : Bool) :
    Except PngError (Option PngChunk) × PngFile :=
  let r := extract_chunk_step s chunk_offset
  let s2 := if reset_pos then { r.2 with pos := 0 } else r.2
  match r.1 with
  | Except.ok c => (Except.ok (some c), s2)
  | Except.error e =>
    if s.strict then (Except.error e, s2) else (Except.ok none, s2)

/-- The while loop of PngFile.process_chunks: while the cursor is before
the end of the map, extract a chunk at the cursor without the cursor reset
and append the result (a some or, on a swallowed lenient failure, a none)
to the chunk list; a strict-mode exception aborts the loop.  The fuel
argument only bounds the recursion; each iteration advances the cursor by
at least one byte, so any fuel of at least `raw.length - pos` reproduces
the unbounded loop exactly (walkLoop_fuel_stable below). -/
def walkLoop : Nat → PngFile → Except PngError Unit × PngFile
  | 0, s => (Except.ok (), s)
  | fuel + 1, s =>
    if s.pos < s.raw.length then
      let r := extract_chunk s s.pos false
      match r.1 with
      | Except.error e => (Except.error e, r.2)
      | Except.ok oc => walkLoop fuel { r.2 with chunks := r.2.chunks ++ [oc] }
    else (Except.ok (), s)

/-- PngFile.process_chunks: seek just past the 8-byte signature (this seek
is outside the try block, so its ValueError propagates in either mode and
skips the finally block), run the chunk loop, reset the cursor to 0 in the
finally block, re-raise a strict-mode exception, and otherwise report
whether the accumulated chunk list is non-empty. -/
def process_chunks (s : PngFile) : Except PngError Bool × PngFile :=
  match mmapSeek s valid_signature.length with
  | Except.error e => (Except.error e, s)
  | Except.ok s1 =>
    let r := walkLoop (s.raw.length + 1) s1
    let s2 := { r.2 with pos := 0 }
    match r.1 with
    | Except.ok _ => (Except.ok (decide (s2.chunks ≠ [])), s2)
    | Except.error e =>
      if s.strict then (Except.error e, s2)
      else (Except.ok (decide (s2.chunks ≠ [])), s2)

/-! ### Helper lemmas about the decode primitive -/

theorem unpackBE4_eq_none (l : List Nat) (h : l.length ≠ 4) : unpackBE4 l = none := by
  rcases l with _ | ⟨a, _ | ⟨b, _ | ⟨c, _ | ⟨d, _ | ⟨e, t⟩⟩⟩⟩⟩ <;>
    first
      | rfl
      | (exfalso; exact h rfl)

theorem unpackBE4_eq_some (l : List Nat) (h : l.length = 4) :
    ∃ v, unpackBE4 l = some v := by
  rcases l with _ | ⟨a, _ | ⟨b, _ | ⟨c, _ | ⟨d, _ | ⟨e, t⟩⟩⟩⟩⟩ <;>
    simp only [List.length_nil, List.length_cons] at h <;>
    first
      | exact ⟨_, rfl⟩
      | omega

/-- The 4-byte window read for the length field at an offset with at least
4 bytes available has length exactly 4. -/
theorem take4_length (raw : List Nat) (off : Nat) (h : off + 4 ≤ raw.length) :
    ((raw.drop off).take 4).length = 4 := by
  simp only [List.length_take, List.length_drop]
  omega

/-- Seek failure case of the decode body: an offset past the end of the
map raises before anything is read, leaving the state untouched. -/
theorem extract_chunk_step_seek_fail (s : PngFile) (off : Nat)
    (h : s.raw.length < off) :
    extract_chunk_step s off = (Except.error PngError.SeekOutOfRange, s) := by
  unfold extract_chunk_step mmapSeek
  rw [if_neg (by omega)]

/-- Truncated length field case: with the offset inside the map but fewer
than 4 bytes remaining, struct.unpack raises and the cursor is left at the
end of the map. -/
theorem extract_chunk_step_trunc (s : PngFile) (off : Nat)
    (h1 : off ≤ s.raw.length) (h2 : s.raw.length < off + 4) :
    extract_chunk_step s off =
      (Except.error PngError.TruncatedChunk, { s with pos := s.raw.length }) := by
  unfold extract_chunk_step mmapSeek mmapRead
  rw [if_pos h1]
  dsimp only
  rw [unpackBE4_eq_none _ (by simp only [List.length_take, List.length_drop]; omega)]
  rw [show min (off + 4) s.raw.length = s.raw.length by omega]

/-- Strict-mode unrecognized tag case: the length field decoded, the tag
read at offset+4 is not in the standardized list, and strict mode is on,
so the assertion raises with the cursor just past the tag read. -/
theorem extract_chunk_step_unrecognized (s : PngFile) (off : Nat)
    (h4 : off + 4 ≤ s.raw.length) (hs : s.strict = true)
    (hc : potential_chunks.contains ((s.raw.drop (off + 4)).take 4) = false) :
    extract_chunk_step s off =
      (Except.error PngError.UnrecognizedChunkType,
       { s with pos := min (off + 8) s.raw.length }) := by
  obtain ⟨len, hlen⟩ := unpackBE4_eq_some _ (take4_length s.raw off h4)
  unfold extract_chunk_step mmapSeek mmapRead
  rw [if_pos (by omega)]
  dsimp only
  rw [hlen]
  dsimp only
  rw [show min (off + 4) s.raw.length = off + 4 by omega]
  have hmem : (s.raw.drop (off + 4)).take 4 ∉ potential_chunks := by
    simpa using hc
  simp [hs, hmem, show off + 4 + 4 = off + 8 from by omega]

/-- Successful decode case: the length field decoded and, when strict, the
tag is standardized.  Note there is no bound at all on the decoded length:
the payload and CRC reads silently truncate at the end of the map, so the
chunk is produced even when offset + 12 + length exceeds the map size. -/
theorem extract_chunk_step_ok (s : PngFile) (off : Nat)
    (h4 : off + 4 ≤ s.raw.length)
    (hty : s.strict = true →
      potential_chunks.contains ((s.raw.drop (off + 4)).take 4) = true) :
    ∃ len, unpackBE4 ((s.raw.drop off).take 4) = some len ∧
      extract_chunk_step s off =
        (Except.ok
           { offset := off, length := len,
             type := (s.raw.drop (off + 4)).take 4,
             data := (s.raw.drop (min (off + 8) s.raw.length)).take len,
             crc_claim :=
               (s.raw.drop (min (min (off + 8) s.raw.length + len) s.raw.length)).take 4 },
         { s with pos := (min (min (min (off + 8) s.raw.length + len)
             s.raw.length + 4) s.raw.length) }) := by
  obtain ⟨len, hlen⟩ := unpackBE4_eq_some _ (take4_length s.raw off h4)
  refine ⟨len, hlen, ?_⟩
  unfold extract_chunk_step mmapSeek mmapRead
  rw [if_pos (by omega)]
  dsimp only
  rw [hlen]
  dsimp only
  rw [show min (off + 4) s.raw.length = off + 4 by omega]
  have hcond : (s.strict && !potential_chunks.contains ((s.raw.drop (off + 4)).take 4)) = false := by
    cases hstr : s.strict
    · rfl
    · rw [hty hstr]; rfl
  rw [hcond]
  simp [show off + 4 + 4 = off + 8 from by omega]

/-- Exhaustive case analysis of the decode body: seek failure, truncated
length field, strict-mode tag failure, or success. -/
theorem extract_chunk_step_cases (s : PngFile) (off : Nat) :
    (s.raw.length < off ∧
       extract_chunk_step s off = (Except.error PngError.SeekOutOfRange, s)) ∨
    (off ≤ s.raw.length ∧ s.raw.length < off + 4 ∧
       extract_chunk_step s off =
         (Except.error PngError.TruncatedChunk, { s with pos := s.raw.length })) ∨
    (off + 4 ≤ s.raw.length ∧ s.strict = true ∧
       potential_chunks.contains ((s.raw.drop (off + 4)).take 4) = false ∧
       extract_chunk_step s off =
         (Except.error PngError.UnrecognizedChunkType,
          { s with pos := min (off + 8) s.raw.length })) ∨
    (off + 4 ≤ s.raw.length ∧ ∃ len,
       unpackBE4 ((s.raw.drop off).take 4) = some len ∧
       extract_chunk_step s off =
         (Except.ok
            { offset := off, length := len,
              type := (s.raw.drop (off + 4)).take 4,
              data := (s.raw.drop (min (off + 8) s.raw.length)).take len,
              crc_claim :=
                (s.raw.drop (min (min (off + 8) s.raw.length + len) s.raw.length)).take 4 },
          { s with pos := (min (min (min (off + 8) s.raw.length + len)
              s.raw.length + 4) s.raw.length) })) := by
  by_cases h1 : off ≤ s.raw.length
  · by_cases h2 : off + 4 ≤ s.raw.length
    · by_cases h3 : s.strict = true ∧
        potential_chunks.contains ((s.raw.drop (off + 4)).take 4) = false
      · exact Or.inr (Or.inr (Or.inl
          ⟨h2, h3.1, h3.2, extract_chunk_step_unrecognized s off h2 h3.1 h3.2⟩))
      · refine Or.inr (Or.inr (Or.inr ⟨h2, ?_⟩))
        have hty : s.strict = true →
            potential_chunks.contains ((s.raw.drop (off + 4)).take 4) = true := by
          intro hs
          rcases hcon : potential_chunks.contains ((s.raw.drop (off + 4)).take 4)
          · exact absurd ⟨hs, hcon⟩ h3
          · rfl
        exact extract_chunk_step_ok s off h2 hty
    · exact Or.inr (Or.inl ⟨h1, by omega, extract_chunk_step_trunc s off h1 (by omega)⟩)
  · exact Or.inl ⟨by omega, extract_chunk_step_seek_fail s off (by omega)⟩

/-- The decode body never touches the buffer, the chunk list, the mode
flag or the cached header, and it leaves the cursor strictly past the
offset whenever the offset was strictly inside the map. -/
theorem extract_chunk_step_frame (s : PngFile) (off : Nat) :
    (extract_chunk_step s off).2.raw = s.raw ∧
    (extract_chunk_step s off).2.chunks = s.chunks ∧
    (extract_chunk_step s off).2.strict = s.strict ∧
    (extract_chunk_step s off).2.file_header = s.file_header ∧
    (off < s.raw.length → off < (extract_chunk_step s off).2.pos) := by
  rcases extract_chunk_step_cases s off with ⟨h1, he⟩ | ⟨h1, h2, he⟩ |
      ⟨h1, h2, h3, he⟩ | ⟨h1, len, hlen, he⟩ <;>
    rw [he] <;> exact ⟨rfl, rfl, rfl, rfl, by intro hlt; dsimp only; omega⟩

/-- extract_chunk without the cursor reset returns exactly the state that
the decode body stopped in. -/
theorem extract_chunk_snd_false (s : PngFile) (off : Nat) :
    (extract_chunk s off false).2 = (extract_chunk_step s off).2 := by
  unfold extract_chunk
  cases h : (extract_chunk_step s off).1 <;> simp only [h]
  · cases s.strict <;> rfl
  · rfl

/-- extract_chunk with the cursor reset returns the decode-body state with
the cursor seeked back to 0, on success and failure alike (the seek sits
in the finally block). -/
theorem extract_chunk_snd_true (s : PngFile) (off : Nat) :
    (extract_chunk s off true).2 = { (extract_chunk_step s off).2 with pos := 0 } := by
  unfold extract_chunk
  cases h : (extract_chunk_step s off).1 <;> simp only [h]
  · cases s.strict <;> rfl
  · rfl

/-- extract_chunk yields a chunk exactly when the decode body did. -/
theorem extract_chunk_fst_ok (s : PngFile) (off : Nat) (r : Bool) (c : PngChunk) :
    (extract_chunk s off r).1 = Except.ok (some c) ↔
      (extract_chunk_step s off).1 = Except.ok c := by
  rcases extract_chunk_step_cases s off with ⟨h1, he⟩ | ⟨h1, h2, he⟩ |
      ⟨h1, h2, h3, he⟩ | ⟨h1, len, hlen, he⟩ <;>
    cases hs : s.strict <;> simp [extract_chunk, he, hs]

/-- extract_chunk re-raises exactly in strict mode. -/
theorem extract_chunk_fst_error (s : PngFile) (off : Nat) (r : Bool) (e : PngError) :
    (extract_chunk s off r).1 = Except.error e ↔
      (s.strict = true ∧ (extract_chunk_step s off).1 = Except.error e) := by
  rcases extract_chunk_step_cases s off with ⟨h1, he⟩ | ⟨h1, h2, he⟩ |
      ⟨h1, h2, h3, he⟩ | ⟨h1, len, hlen, he⟩ <;>
    cases hs : s.strict <;> simp [extract_chunk, he, hs]

/-- In lenient mode extract_chunk never raises: every decode failure is
swallowed into a None result. -/
theorem extract_chunk_lenient_no_error (s : PngFile) (off : Nat) (r : Bool)
    (hs : s.strict = false) (e : PngError) :
    (extract_chunk s off r).1 ≠ Except.error e := by
  intro h
  rcases (extract_chunk_fst_error s off r e).1 h with ⟨hstr, _⟩
  rw [hs] at hstr
  cases hstr

/-- In lenient mode a decode failure makes extract_chunk return None. -/
theorem extract_chunk_lenient_none (s : PngFile) (off : Nat) (r : Bool)
    (hs : s.strict = false) (e : PngError)
    (h : (extract_chunk_step s off).1 = Except.error e) :
    (extract_chunk s off r).1 = Except.ok none := by
  simp [extract_chunk, h, hs]

/-- When the decode body yields a chunk, the chunk records the requested
offset, and if the cursor afterwards is still strictly inside the map then
no read was clipped, so the cursor sits exactly 12 + length bytes past the
offset. -/
theorem extract_chunk_step_ok_inv (s : PngFile) (off : Nat) (c : PngChunk)
    (h : (extract_chunk_step s off).1 = Except.ok c) :
    c.offset = off ∧
    ((extract_chunk_step s off).2.pos < s.raw.length →
      (extract_chunk_step s off).2.pos = off + 12 + c.length) := by
  rcases extract_chunk_step_cases s off with ⟨h1, he⟩ | ⟨h1, h2, he⟩ |
      ⟨h1, h2, h3, he⟩ | ⟨h1, len, hlen, he⟩ <;> rw [he] at h ⊢ <;> dsimp only at h ⊢
  · simp at h
  · simp at h
  · simp at h
  · cases h
    refine ⟨rfl, ?_⟩
    intro hlt
    dsimp only at hlt ⊢
    omega

/-! ### The sequential walk -/

/-- The adjacency invariant of a produced sequence: every decoded chunk
that immediately follows another decoded chunk starts exactly 12 bytes
plus the previous declared length after the previous one. -/
def Adjacent (l : List (Option PngChunk)) : Prop :=
  ∀ (i : Nat) (c c' : PngChunk), l[i]? = some (some c) →
    l[i + 1]? = some (some c') → c'.offset = c.offset + 12 + c.length

theorem adjacent_nil : Adjacent [] := by
  intro i c c' h1 h2
  simp at h1

/-- Appending one entry preserves adjacency provided the new entry, when
it is a decoded chunk following a decoded chunk, is correctly linked to
the last entry of the old list. -/
theorem adjacent_concat (l : List (Option PngChunk)) (x : Option PngChunk)
    (hl : Adjacent l)
    (hlink : ∀ c c', l.getLast? = some (some c) → x = some c' →
      c'.offset = c.offset + 12 + c.length) :
    Adjacent (l ++ [x]) := by
  intro i c c' h1 h2
  have hlen2 : i + 1 < l.length + 1 := by
    have hh := (List.getElem?_eq_some.1 h2).1
    simpa using hh
  rcases Nat.lt_or_ge (i + 1) l.length with hlt | hge
  · refine hl i c c' ?_ ?_
    · rw [List.getElem?_append_left (by omega)] at h1
      exact h1
    · rw [List.getElem?_append_left hlt] at h2
      exact h2
  · have hi1 : i + 1 = l.length := by omega
    have hx : x = some c' := by
      rw [List.getElem?_append_right hge, hi1] at h2
      simp at h2
      exact h2
    have hlast : l.getLast? = some (some c) := by
      rw [List.getLast?_eq_getElem?, show l.length - 1 = i by omega]
      rw [List.getElem?_append_left (by omega)] at h1
      exact h1
    exact hlink c c' hlast hx

/-- The chunk loop only appends to the chunk list and never touches the
buffer or the mode flag. -/
theorem walkLoop_frame (fuel : Nat) : ∀ s : PngFile,
    (walkLoop fuel s).2.raw = s.raw ∧ (walkLoop fuel s).2.strict = s.strict ∧
    ∃ l, (walkLoop fuel s).2.chunks = s.chunks ++ l := by
  induction fuel with
  | zero =>
    intro s
    exact ⟨rfl, rfl, [], by simp [walkLoop]⟩
  | succ n ih =>
    intro s
    simp only [walkLoop]
    by_cases hp : s.pos < s.raw.length
    · rw [if_pos hp]
      have hsnd := extract_chunk_snd_false s s.pos
      have hframe := extract_chunk_step_frame s s.pos
      cases hr : (extract_chunk s s.pos false).1 with
      | error e =>
        dsimp only
        rw [hsnd]
        exact ⟨hframe.1, hframe.2.2.1, [], by rw [hframe.2.1]; simp⟩
      | ok oc =>
        dsimp only
        have hkey := ih { (extract_chunk s s.pos false).2 with
          chunks := (extract_chunk s s.pos false).2.chunks ++ [oc] }
        dsimp only at hkey
        obtain ⟨hraw, hstrict, l, hl⟩ := hkey
        refine ⟨?_, ?_, [oc] ++ l, ?_⟩
        · rw [hraw, hsnd, hframe.1]
        · rw [hstrict, hsnd, hframe.2.2.1]
        · rw [hl, hsnd, hframe.2.1]
          simp
    · rw [if_neg hp]
      exact ⟨rfl, rfl, [], by simp⟩

/-- The chunk loop preserves the adjacency invariant.  The auxiliary
hypothesis states that whenever the loop can still run, the last decoded
entry of the accumulated list ends exactly at the cursor; a truncated
chunk leaves the cursor at the end of the map, which stops the loop, so
the hypothesis is maintained. -/
theorem walkLoop_adjacent (fuel : Nat) : ∀ s : PngFile,
    Adjacent s.chunks →
    (s.pos < s.raw.length → ∀ c, s.chunks.getLast? = some (some c) →
      c.offset + 12 + c.length = s.pos) →
    Adjacent (walkLoop fuel s).2.chunks := by
  induction fuel with
  | zero =>
    intro s h1 _
    exact h1
  | succ n ih =>
    intro s h1 h2
    simp only [walkLoop]
    by_cases hp : s.pos < s.raw.length
    · rw [if_pos hp]
      have hsnd := extract_chunk_snd_false s s.pos
      have hframe := extract_chunk_step_frame s s.pos
      cases hr : (extract_chunk s s.pos false).1 with
      | error e =>
        dsimp only
        rw [hsnd, hframe.2.1]
        exact h1
      | ok oc =>
        dsimp only
        apply ih
        · dsimp only
          rw [hsnd, hframe.2.1]
          apply adjacent_concat s.chunks oc h1
          intro c0 c' hlast hoc
          have hstep : (extract_chunk_step s s.pos).1 = Except.ok c' := by
            rw [← extract_chunk_fst_ok s s.pos false c', hr, hoc]
          have hinv := extract_chunk_step_ok_inv s s.pos c' hstep
          rw [hinv.1]
          exact (h2 hp c0 hlast).symm
        · dsimp only
          intro hp' c hc
          rw [hsnd] at hp' hc ⊢
          rw [hframe.1] at hp'
          rw [hframe.2.1, List.getLast?_concat] at hc
          have hoc : oc = some c := by
            injection hc
          have hstep : (extract_chunk_step s s.pos).1 = Except.ok c := by
            rw [← extract_chunk_fst_ok s s.pos false c, hr, hoc]
          have hinv := extract_chunk_step_ok_inv s s.pos c hstep
          rw [hinv.1]
          exact (hinv.2 hp').symm
    · rw [if_neg hp]
      exact h1

/-- One unfolding step of the bounded loop. -/
theorem walkLoop_succ (fuel : Nat) (s : PngFile) :
    walkLoop (fuel + 1) s =
      if s.pos < s.raw.length then
        match (extract_chunk s s.pos false).1 with
        | Except.error e => (Except.error e, (extract_chunk s s.pos false).2)
        | Except.ok oc => walkLoop fuel { (extract_chunk s s.pos false).2 with
            chunks := (extract_chunk s s.pos false).2.chunks ++ [oc] }
      else (Except.ok (), s) := by
  rfl

/-- Any fuel of at least `raw.length - pos` makes the bounded loop agree
with one more unit of fuel: each iteration strictly advances the cursor,
so the bound used by process_chunks reproduces the unbounded while loop
exactly. -/
theorem walkLoop_fuel_stable (fuel : Nat) : ∀ s : PngFile,
    s.raw.length - s.pos ≤ fuel → walkLoop (fuel + 1) s = walkLoop fuel s := by
  induction fuel with
  | zero =>
    intro s h
    simp only [walkLoop]
    rw [if_neg (by omega)]
  | succ n ih =>
    intro s h
    rw [walkLoop_succ (n + 1) s, walkLoop_succ n s]
    by_cases hp : s.pos < s.raw.length
    · rw [if_pos hp, if_pos hp]
      have hsnd := extract_chunk_snd_false s s.pos
      have hframe := extract_chunk_step_frame s s.pos
      cases hr : (extract_chunk s s.pos false).1 with
      | error e =>
        rfl
      | ok oc =>
        dsimp only
        apply ih
        dsimp only
        rw [hsnd, hframe.1]
        have hadv := hframe.2.2.2.2 hp
        omega
    · rw [if_neg hp, if_neg hp]

/-! ### process_chunks level lemmas -/

theorem valid_signature_length : valid_signature.length = 8 := rfl

/-- On a buffer shorter than the signature, the initial seek past the
header fails; it sits outside the try block, so the error propagates in
either mode and the finally block (which would rewind the cursor) is
never entered: the state is returned untouched. -/
theorem process_chunks_seek_fail (s : PngFile) (h : s.raw.length < 8) :
    process_chunks s = (Except.error PngError.SeekOutOfRange, s) := by
  unfold process_chunks mmapSeek
  rw [if_neg (by rw [valid_signature_length]; omega)]

/-- Whenever the initial seek succeeds, the finally block runs and leaves
the cursor at 0, for normal returns and re-raised exceptions alike. -/
theorem process_chunks_pos_zero (s : PngFile) (h : 8 ≤ s.raw.length) :
    (process_chunks s).2.pos = 0 := by
  unfold process_chunks mmapSeek
  rw [if_pos (show valid_signature.length ≤ s.raw.length from by
    rw [valid_signature_length]; omega)]
  dsimp only
  cases hw : (walkLoop (s.raw.length + 1)
      { s with pos := valid_signature.length }).1 with
  | error e => cases hs : s.strict <;> rfl
  | ok u => rfl

/-- A normal boolean return of process_chunks is exactly the emptiness
test of the final chunk list. -/
theorem process_chunks_ok_result (s : PngFile) (b : Bool)
    (h : (process_chunks s).1 = Except.ok b) :
    b = decide ((process_chunks s).2.chunks ≠ []) := by
  by_cases h8 : 8 ≤ s.raw.length
  · revert h
    unfold process_chunks mmapSeek
    rw [if_pos (show valid_signature.length ≤ s.raw.length from by
      rw [valid_signature_length]; omega)]
    dsimp only
    cases hw : (walkLoop (s.raw.length + 1)
        { s with pos := valid_signature.length }).1 with
    | error e =>
      cases hs : s.strict <;> dsimp only <;> intro h
      · injection h with h
        exact h.symm
      · cases h
    | ok u =>
      dsimp only
      intro h
      injection h with h
      exact h.symm
  · have hfail := process_chunks_seek_fail s (by omega)
    rw [hfail] at h
    cases h

/-- process_chunks only ever appends to the chunk list it started with. -/
theorem process_chunks_chunks_extend (s : PngFile) :
    ∃ l, (process_chunks s).2.chunks = s.chunks ++ l := by
  by_cases h8 : 8 ≤ s.raw.length
  · unfold process_chunks mmapSeek
    rw [if_pos (show valid_signature.length ≤ s.raw.length from by
      rw [valid_signature_length]; omega)]
    dsimp only
    obtain ⟨l, hl⟩ := (walkLoop_frame (s.raw.length + 1)
      { s with pos := valid_signature.length }).2.2
    dsimp only at hl
    cases hw : (walkLoop (s.raw.length + 1)
        { s with pos := valid_signature.length }).1 with
    | error e =>
      dsimp only
      split <;> exact ⟨l, hl⟩
    | ok u => exact ⟨l, hl⟩
  · rw [process_chunks_seek_fail s (by omega)]
    exact ⟨[], by simp⟩

/-- A walk that starts from an empty chunk list produces an
adjacency-correct sequence, in both modes and on every buffer. -/
theorem process_chunks_adjacent (s : PngFile) (h : s.chunks = []) :
    Adjacent (process_chunks s).2.chunks := by
  by_cases h8 : 8 ≤ s.raw.length
  · unfold process_chunks mmapSeek
    rw [if_pos (show valid_signature.length ≤ s.raw.length from by
      rw [valid_signature_length]; omega)]
    dsimp only
    have hadj := walkLoop_adjacent (s.raw.length + 1)
      { s with pos := valid_signature.length }
      (by dsimp only; rw [h]; exact adjacent_nil)
      (by dsimp only; intro _ c hc; rw [h] at hc; simp at hc)
    cases hw : (walkLoop (s.raw.length + 1)
        { s with pos := valid_signature.length }).1 with
    | error e =>
      dsimp only
      split <;> exact hadj
    | ok u => exact hadj
  · rw [process_chunks_seek_fail s (by omega)]
    dsimp only
    rw [h]
    exact adjacent_nil

/-! ### Concrete buffers used by the claim theorems -/

/-- Signature followed by a single well-formed IEND chunk with length 0
and trailing bytes AB12. -/
def iendBuf : List Nat :=
  valid_signature ++ [0, 0, 0, 0] ++ [73, 69, 78, 68] ++ [65, 66, 49, 50]

/-- Signature followed by one stray byte: fewer than 4 bytes remain for a
length field. -/
def nineBuf : List Nat := valid_signature ++ [0]

/-- Signature followed by a chunk that declares length 5 but is followed
by only 2 bytes: offset 8 + 12 + 5 = 25 exceeds the 18-byte buffer. -/
def c1buf : List Nat :=
  valid_signature ++ [0, 0, 0, 5] ++ [73, 69, 78, 68] ++ [65, 66]

/-- Signature followed by a chunk with the non-standardized tag zzZZ. -/
def zzBuf : List Nat :=
  valid_signature ++ [0, 0, 0, 0] ++ [122, 122, 90, 90] ++ [1, 2, 3, 4]

/-- Signature followed by two contiguous chunks: a tEXt chunk with a
1-byte payload at offset 8, then an IEND chunk at offset 21. -/
def twoChunkBuf : List Nat :=
  valid_signature ++ [0, 0, 0, 1] ++ [116, 69, 88, 116] ++ [7] ++ [1, 2, 3, 4] ++
    [0, 0, 0, 0] ++ [73, 69, 78, 68] ++ [9, 9, 9, 9]

/-- A loaded lenient PngFile whose shared cursor sits at position 12, as
it would mid-way through a sequential walk. -/
def c4state : PngFile := { (mkPng false iendBuf) with pos := 12 }

/-- A strict PngFile over a 7-byte buffer whose cursor sits at position 5
(reachable by an extract_chunk call that opted out of the cursor reset). -/
def c10state : PngFile :=
  { strict := true, raw := [0, 0, 0, 0, 0, 0, 0], pos := 5, chunks := [],
    file_header := some [0, 0, 0, 0, 0, 0, 0] }

/-- The first chunk of twoChunkBuf. -/
def wChunk1 : PngChunk :=
  { offset := 8, length := 1, type := [116, 69, 88, 116], data := [7],
    crc_claim := [1, 2, 3, 4] }

/-- The second chunk of twoChunkBuf. -/
def wChunk2 : PngChunk :=
  { offset := 21, length := 0, type := [73, 69, 78, 68], data := [],
    crc_claim := [9, 9, 9, 9] }

/-- The overrun chunk that c1buf actually decodes to: its data holds only
the 2 bytes that remained, and its claimed CRC is empty. -/
def c1chunk : PngChunk :=
  { offset := 8, length := 5, type := [73, 69, 78, 68], data := [65, 66],
    crc_claim := [] }

/-- The single chunk that iendBuf decodes to. -/
def iendChunk : PngChunk :=
  { offset := 8, length := 0, type := [73, 69, 78, 68], data := [],
    crc_claim := [65, 66, 49, 50] }

/-! ### Claim theorems -/

/-- Claim C1, counterexample: a chunk whose declared length makes
offset + 12 + length exceed the buffer size (25 over an 18-byte buffer)
is decoded successfully in both strict and lenient mode — the payload
and CRC reads silently truncate instead of failing with TruncatedChunk. -/
theorem C1_counterexample :
    c1buf.length = 18 ∧ 18 < 8 + 12 + 5 ∧
    (extract_chunk (mkPng true c1buf) 8 true).1 = Except.ok (some c1chunk) ∧
    (extract_chunk (mkPng false c1buf) 8 true).1 = Except.ok (some c1chunk) := by
  decide

/-- Claim C1, amended: only the read of the 4-byte length field is
effectively bounds-checked — with the offset inside the buffer but fewer
than 4 bytes remaining, decoding fails with TruncatedChunk (re-raised in
strict mode, swallowed into None in lenient mode).  Once the length field
decodes (and, in strict mode, the tag is standardized), decoding always
produces a chunk: the payload and CRC reads clip silently at the end of
the buffer, so a declared length pointing past end-of-buffer is not a
failure. -/
theorem C1_amended_decode_truncation (s : PngFile) (off : Nat) (reset : Bool) :
    (off ≤ s.raw.length → s.raw.length < off + 4 →
      (extract_chunk s off reset).1 =
        (if s.strict = true then Except.error PngError.TruncatedChunk
         else Except.ok none)) ∧
    (off + 8 ≤ s.raw.length →
      (s.strict = true →
        potential_chunks.contains ((s.raw.drop (off + 4)).take 4) = true) →
      ∃ c, (extract_chunk s off reset).1 = Except.ok (some c) ∧
        c.offset = off ∧
        unpackBE4 ((s.raw.drop off).take 4) = some c.length ∧
        c.type = (s.raw.drop (off + 4)).take 4 ∧
        c.data = (s.raw.drop (off + 8)).take c.length) := by
  constructor
  · intro h1 h2
    have hstep := extract_chunk_step_trunc s off h1 h2
    by_cases hs : s.strict = true
    · rw [if_pos hs]
      exact (extract_chunk_fst_error s off reset _).2 ⟨hs, by rw [hstep]⟩
    · rw [if_neg hs]
      exact extract_chunk_lenient_none s off reset
        (by simpa using hs) _ (by rw [hstep])
  · intro h8 hty
    obtain ⟨len, hlen, heq⟩ := extract_chunk_step_ok s off (by omega) hty
    refine ⟨_, (extract_chunk_fst_ok s off reset _).2 (by rw [heq]),
      rfl, ?_, rfl, ?_⟩
    · exact hlen
    · show (s.raw.drop (min (off + 8) s.raw.length)).take len = _
      rw [show min (off + 8) s.raw.length = off + 8 by omega]

/-- Claim C1, witness for the amended theorem at the overrun buffer. -/
theorem C1_witness :
    ∃ c, (extract_chunk (mkPng true c1buf) 8 false).1 = Except.ok (some c) ∧
      c.offset = 8 ∧
      unpackBE4 (((mkPng true c1buf).raw.drop 8).take 4) = some c.length ∧
      c.type = ((mkPng true c1buf).raw.drop (8 + 4)).take 4 ∧
      c.data = ((mkPng true c1buf).raw.drop (8 + 8)).take c.length :=
  (C1_amended_decode_truncation (mkPng true c1buf) 8 false).2
    (by decide) (by decide)

/-- Claim C2, counterexample: on the 9-byte buffer the lenient walk
decodes zero chunks (the only list entry is the swallowed None), yet
process_chunks returns true. -/
theorem C2_counterexample :
    (process_chunks (mkPng false nineBuf)).1 = Except.ok true ∧
    (process_chunks (mkPng false nineBuf)).2.chunks.filterMap id = [] := by
  decide

/-- Claim C2, amended: a normal return of process_chunks is true exactly
when the final chunk list is non-empty — but that list counts the None
entry appended on a swallowed lenient failure, so the walk can report
success with zero decoded chunks; everything collected before a failure
is kept (the walk only ever appends to the list it started with). -/
theorem C2_amended_success_iff (s : PngFile) (b : Bool)
    (h : (process_chunks s).1 = Except.ok b) :
    (b = true ↔ (process_chunks s).2.chunks ≠ []) ∧
    ∃ l, (process_chunks s).2.chunks = s.chunks ++ l := by
  refine ⟨?_, process_chunks_chunks_extend s⟩
  rw [process_chunks_ok_result s b h]
  exact decide_eq_true_iff

/-- Claim C2, witness for the amended theorem on the one-chunk buffer. -/
theorem C2_amended_witness :
    ((true = true) ↔ (process_chunks (mkPng false iendBuf)).2.chunks ≠ []) ∧
    ∃ l, (process_chunks (mkPng false iendBuf)).2.chunks =
      (mkPng false iendBuf).chunks ++ l :=
  C2_amended_success_iff (mkPng false iendBuf) true (by decide)

/-- Claim C3, counterexample: a 1-byte buffer is shorter than 8 bytes,
yet load does not fail with EmptyInput — it loads successfully with a
short cached header. -/
theorem C3_counterexample :
    ([65] : List Nat).length < 8 ∧
    load_from_file false [65] ≠ Except.error PngError.EmptyInput := by
  decide

/-- Claim C3, amended: load fails with EmptyInput exactly for the empty
buffer (where mmap refuses to map); every non-empty buffer, including
those of 1 to 7 bytes, loads successfully with the first up-to-8 bytes
cached as the header. -/
theorem C3_amended_load_empty_only (strict : Bool) (buf : List Nat) :
    (load_from_file strict buf = Except.error PngError.EmptyInput ↔
      buf.length = 0) ∧
    (buf.length ≠ 0 → load_from_file strict buf = Except.ok (mkPng strict buf)) := by
  unfold load_from_file
  by_cases h : buf.length = 0 <;> simp [h]

/-- Claim C3, witness for the amended theorem on a 1-byte buffer. -/
theorem C3_amended_witness :
    load_from_file false [65] = Except.ok (mkPng false [65]) :=
  (C3_amended_load_empty_only false [65]).2 (by decide)

/-- Claim C4, counterexample: with the cursor at position 12 before the
call, extract_chunk with cursor preservation enabled leaves the cursor at
0, not at its prior position. -/
theorem C4_counterexample :
    c4state.pos = 12 ∧
    (extract_chunk c4state 8 true).2.pos = 0 ∧
    ¬ (extract_chunk c4state 8 true).2.pos = c4state.pos := by
  decide

/-- Claim C4, amended: with reset_pos enabled (the source default) the
call always seeks the shared cursor to position 0 — the buffer start, not
the pre-call position — while leaving the buffer and the chunk list
untouched; a sequential walker therefore has to opt out of the reset, as
process_chunks does, or its cursor would be rewound on every call. -/
theorem C4_amended_cursor_reset_zero (s : PngFile) (off : Nat) :
    (extract_chunk s off true).2.pos = 0 ∧
    (extract_chunk s off true).2.raw = s.raw ∧
    (extract_chunk s off true).2.chunks = s.chunks := by
  rw [extract_chunk_snd_true]
  exact ⟨rfl, (extract_chunk_step_frame s off).1,
    (extract_chunk_step_frame s off).2.1⟩

/-- Claim C5: in strict mode a fully readable 4-byte tag outside the
standardized list makes decoding fail with UnrecognizedChunkType, and in
lenient mode extract_chunk never raises any error at all — in particular
never UnrecognizedChunkType, since the tag assertion is skipped. -/
theorem C5_strict_tag_check (s : PngFile) (off : Nat) (reset : Bool) :
    (s.strict = true → off + 8 ≤ s.raw.length →
      potential_chunks.contains ((s.raw.drop (off + 4)).take 4) = false →
      (extract_chunk s off reset).1 =
        Except.error PngError.UnrecognizedChunkType) ∧
    (s.strict = false →
      ∀ e, (extract_chunk s off reset).1 ≠ Except.error e) := by
  constructor
  · intro hs h8 hc
    exact (extract_chunk_fst_error s off reset _).2
      ⟨hs, by rw [extract_chunk_step_unrecognized s off (by omega) hs hc]⟩
  · intro hs e
    exact extract_chunk_lenient_no_error s off reset hs e

/-- Claim C5, witness at the zzZZ-tagged buffer in strict mode. -/
theorem C5_witness :
    (extract_chunk (mkPng true zzBuf) 8 true).1 =
      Except.error PngError.UnrecognizedChunkType :=
  (C5_strict_tag_check (mkPng true zzBuf) 8 true).1 rfl (by decide) (by decide)

/-- Claim C6: a walk started from an empty chunk list produces a sequence
in which every decoded chunk that immediately follows another decoded
chunk starts exactly at the previous offset plus 12 plus the previous
declared length — chunks are contiguous and non-overlapping. -/
theorem C6_walk_adjacency (s : PngFile) (h : s.chunks = []) :
    ∀ (i : Nat) (c c' : PngChunk),
      (process_chunks s).2.chunks[i]? = some (some c) →
      (process_chunks s).2.chunks[i + 1]? = some (some c') →
      c'.offset = c.offset + 12 + c.length :=
  process_chunks_adjacent s h

/-- Claim C6, witness on the two-chunk buffer: the second chunk starts at
21 = 8 + 12 + 1. -/
theorem C6_witness :
    wChunk2.offset = wChunk1.offset + 12 + wChunk1.length :=
  C6_walk_adjacency (mkPng false twoChunkBuf) rfl 0 wChunk1 wChunk2
    (by decide) (by decide)

/-- Claim C7: validate_signature returns true exactly when the cached
header equals the fixed 8-byte magic byte for byte; a differing, short or
absent header gives false, and the function is total, so it never
raises. -/
theorem C7_validate_signature_iff (s : PngFile) :
    validate_signature s = true ↔
      s.file_header = some [137, 80, 78, 71, 13, 10, 26, 10] := by
  simp [validate_signature, valid_signature]

/-- Claim C8: on the 20-byte buffer made of the signature followed by a
zero-length IEND chunk with trailing bytes AB12, process_chunks returns
true and yields exactly one chunk with length 0, type IEND, empty data
and claimed CRC AB12 — in strict and lenient mode alike. -/
theorem C8_iend_scenario :
    (process_chunks (mkPng true iendBuf)).1 = Except.ok true ∧
    (process_chunks (mkPng false iendBuf)).1 = Except.ok true ∧
    (process_chunks (mkPng true iendBuf)).2.chunks = [some iendChunk] ∧
    (process_chunks (mkPng false iendBuf)).2.chunks = [some iendChunk] := by
  decide

/-- Claim C9: in lenient mode a decode failure (fewer than 4 bytes left
for the length field) makes extract_chunk return None; during the walk
over the 9-byte buffer that None is appended to the chunk list, and
process_chunks returns true although zero chunks were decoded. -/
theorem C9_lenient_none_append :
    (∀ (s : PngFile) (off : Nat) (reset : Bool), s.strict = false →
      off ≤ s.raw.length → s.raw.length < off + 4 →
      (extract_chunk s off reset).1 = Except.ok none) ∧
    ((process_chunks (mkPng false nineBuf)).1 = Except.ok true ∧
      (process_chunks (mkPng false nineBuf)).2.chunks = [none]) := by
  constructor
  · intro s off reset hs h1 h2
    exact extract_chunk_lenient_none s off reset hs _
      (by rw [extract_chunk_step_trunc s off h1 h2])
  · decide

/-- Claim C9, witness for the universal part on a 1-byte buffer. -/
theorem C9_witness :
    (extract_chunk (mkPng false [65]) 0 true).1 = Except.ok none :=
  C9_lenient_none_append.1 (mkPng false [65]) 0 true rfl (by decide) (by decide)

/-- Claim C10, counterexample: on a 7-byte buffer the initial seek of
process_chunks fails outside the try block, so even in strict mode the
exception propagates with the cursor left at its prior position 5, not
0. -/
theorem C10_counterexample :
    c10state.strict = true ∧ c10state.pos = 5 ∧
    (process_chunks c10state).1 = Except.error PngError.SeekOutOfRange ∧
    (process_chunks c10state).2.pos = 5 := by
  decide

/-- Claim C10, amended: whenever the buffer holds at least the 8-byte
header, process_chunks leaves the cursor at 0 on every outcome (normal
return or re-raised strict-mode decode failure); every normal return
leaves it at 0; extract_chunk with cursor preservation always leaves it
at 0; but on a buffer shorter than 8 bytes the initial seek raises in
either mode, bypassing the finally block and leaving the whole state
untouched. -/
theorem C10_amended_cursor_zero (s : PngFile) :
    (8 ≤ s.raw.length → (process_chunks s).2.pos = 0) ∧
    (∀ b, (process_chunks s).1 = Except.ok b → (process_chunks s).2.pos = 0) ∧
    (∀ off, (extract_chunk s off true).2.pos = 0) ∧
    (s.raw.length < 8 → (process_chunks s).2 = s) := by
  refine ⟨process_chunks_pos_zero s, ?_, ?_, ?_⟩
  · intro b hb
    by_cases h8 : 8 ≤ s.raw.length
    · exact process_chunks_pos_zero s h8
    · rw [process_chunks_seek_fail s (by omega)] at hb
      cases hb
  · intro off
    rw [extract_chunk_snd_true]
  · intro h8
    rw [process_chunks_seek_fail s h8]

/-- Claim C10, witness on the one-chunk buffer in strict mode. -/
theorem C10_amended_witness :
    (process_chunks (mkPng true iendBuf)).2.pos = 0 :=
  (C10_amended_cursor_zero (mkPng true iendBuf)).1 (by decide)
